import Mathlib

/-!
Shallow embedding of the systematic-review extraction agent: the template
parsers of template_parser.py, the prompt synthesizer, response cleaning,
record reconciliation and incremental-save steps of gemini_api_extractor.py
and gemini_extractor.py. Python strings are modelled as lists of characters;
the Python str methods used by the code (strip, lower, startswith, endswith,
split, isupper, istitle, the in operator) are modelled on that
representation with ASCII semantics.
-/

/-- Python strings, modelled as lists of characters. -/
abbrev PyStr := List Char

/-- Whitespace characters recognised by the Python str methods (ASCII part). -/
def isPySpace (c : Char) : Bool :=
  c == ' ' || c == '\t' || c == '\n' || c == '\r' || c == '\x0b' || c == '\x0c'

/-- Model of Python str.strip with no argument: remove leading and trailing
whitespace. -/
def pyStrip (l : PyStr) : PyStr :=
  ((l.dropWhile isPySpace).reverse.dropWhile isPySpace).reverse

/-- Model of Python str.lower (ASCII). -/
def pyLower (l : PyStr) : PyStr := l.map Char.toLower

/-- Model of Python str.startswith for a string argument. -/
def pyStartsWith (l s : PyStr) : Bool := s.isPrefixOf l

/-- Model of Python str.endswith for a string argument. -/
def pyEndsWith (l s : PyStr) : Bool := s.isSuffixOf l

/-- Concatenation of the lists produced by f over a list, used to model
loops that extend an accumulator list. -/
def concatMap (f : α → List β) : List α → List β
  | [] => []
  | a :: l => f a ++ concatMap f l

theorem mem_concatMap {f : α → List β} {b : β} :
    ∀ {l : List α}, b ∈ concatMap f l ↔ ∃ a, a ∈ l ∧ b ∈ f a := by
  intro l
  induction l with
  | nil => simp [concatMap]
  | cons a l ih =>
    simp only [concatMap, List.mem_append, ih, List.mem_cons]
    constructor
    · rintro (hb | ⟨a0, ha0, hb⟩)
      · exact ⟨a, Or.inl rfl, hb⟩
      · exact ⟨a0, Or.inr ha0, hb⟩
    · rintro ⟨a0, (rfl | ha0), hb⟩
      · exact Or.inl hb
      · exact Or.inr ⟨a0, ha0, hb⟩

theorem dropWhile_head_false {p : α → Bool} :
    ∀ {l : List α} {a : α} {t : List α}, l.dropWhile p = a :: t → p a = false := by
  intro l
  induction l with
  | nil => intro a t h; simp [List.dropWhile] at h
  | cons b bs ih =>
    intro a t h
    by_cases hb : p b
    · rw [List.dropWhile_cons_of_pos hb] at h
      exact ih h
    · rw [List.dropWhile_cons_of_neg hb] at h
      cases h
      exact eq_false_of_ne_true hb

theorem dropWhile_eq_self_of_head {p : α → Bool} {a : α} {t : List α}
    (h : p a = false) : (a :: t).dropWhile p = a :: t := by
  simp [List.dropWhile, h]

theorem getLast?_dropWhile {p : α → Bool} :
    ∀ {l : List α}, l.dropWhile p ≠ [] → (l.dropWhile p).getLast? = l.getLast? := by
  intro l
  induction l with
  | nil => intro h; simp [List.dropWhile] at h
  | cons b bs ih =>
    intro h
    by_cases hb : p b
    · rw [List.dropWhile_cons_of_pos hb] at h ⊢
      have hbs : bs ≠ [] := by
        intro he; rw [he] at h; simp [List.dropWhile] at h
      rw [ih h]
      cases bs with
      | nil => exact absurd rfl hbs
      | cons c cs => simp [List.getLast?_cons_cons]
    · rw [List.dropWhile_cons_of_neg hb]

/-- The first character of a stripped string is not whitespace. -/
theorem pyStrip_head {l : PyStr} {a : Char} {t : PyStr}
    (h : pyStrip l = a :: t) : isPySpace a = false := by
  unfold pyStrip at h
  have hne : (l.dropWhile isPySpace).reverse.dropWhile isPySpace ≠ [] := by
    intro he; rw [he] at h; simp at h
  have h1 : ((l.dropWhile isPySpace).reverse.dropWhile isPySpace).reverse.head? = some a := by
    rw [h]; rfl
  rw [List.head?_reverse, getLast?_dropWhile hne, List.getLast?_reverse] at h1
  cases hd : l.dropWhile isPySpace with
  | nil => rw [hd] at h1; simp at h1
  | cons c cs =>
    rw [hd] at h1
    simp only [List.head?_cons, Option.some.injEq] at h1
    subst h1
    exact dropWhile_head_false hd

/-- The last character of a stripped string is not whitespace. -/
theorem pyStrip_last {l : PyStr} {a : Char} {t : PyStr}
    (h : (pyStrip l).reverse = a :: t) : isPySpace a = false := by
  unfold pyStrip at h
  rw [List.reverse_reverse] at h
  exact dropWhile_head_false h

/-- A string whose first and last characters are not whitespace is unchanged
by stripping. -/
theorem pyStrip_of_clean : ∀ {l : PyStr},
    (∀ a t, l = a :: t → isPySpace a = false) →
    (∀ a t, l.reverse = a :: t → isPySpace a = false) →
    pyStrip l = l := by
  intro l h1 h2
  cases l with
  | nil => rfl
  | cons a t =>
    unfold pyStrip
    rw [dropWhile_eq_self_of_head (h1 a t rfl)]
    cases hr : (a :: t).reverse with
    | nil => simp at hr
    | cons b bs =>
      have hb : isPySpace b = false := h2 b bs hr
      rw [dropWhile_eq_self_of_head hb]
      rw [← hr]
      rw [List.reverse_reverse]

/-- Stripping is idempotent. -/
theorem pyStrip_idem (l : PyStr) : pyStrip (pyStrip l) = pyStrip l := by
  apply pyStrip_of_clean
  · intro a t h; exact pyStrip_head h
  · intro a t h; exact pyStrip_last h

/-- A string strips to the empty string exactly when all its characters are
whitespace. -/
theorem pyStrip_eq_nil_iff {l : PyStr} :
    pyStrip l = [] ↔ ∀ c ∈ l, isPySpace c = true := by
  unfold pyStrip
  constructor
  · intro h c hc
    rw [List.reverse_eq_nil_iff, List.dropWhile_eq_nil_iff] at h
    have hall : ∀ x ∈ l.dropWhile isPySpace, isPySpace x = true := by
      intro x hx
      exact h x (List.mem_reverse.mpr hx)
    have hsplit : l.takeWhile isPySpace ++ l.dropWhile isPySpace = l :=
      List.takeWhile_append_dropWhile isPySpace l
    rw [← hsplit] at hc
    rcases List.mem_append.mp hc with htk | hdr
    · exact List.mem_takeWhile_imp htk
    · exact hall c hdr
  · intro h
    have : l.dropWhile isPySpace = [] :=
      List.dropWhile_eq_nil_iff.mpr h
    rw [this]
    rfl

/-! ## Field model (template_parser.py, class TemplateField) -/

/-- A single field of the extraction template. The Python attribute
section is called sectionName here because section is a Lean keyword. -/
structure TemplateField where
  name : PyStr
  description : PyStr
  sectionName : PyStr
deriving DecidableEq

/-- The TemplateField constructor: all three arguments are stripped of
surrounding whitespace on construction. -/
def TemplateField.make (name description sectionName : PyStr) : TemplateField :=
  { name := pyStrip name, description := pyStrip description,
    sectionName := pyStrip sectionName }

/-! ## Word parser heuristics (template_parser.py, WordTemplateParser) -/

/-- Model of Python str.isupper (ASCII): at least one cased character and
no lowercase cased character. -/
def pyIsUpper (t : PyStr) : Bool :=
  t.any Char.isAlpha && t.all (fun c => !c.isAlpha || c.isUpper)

/-- Helper for pyIsTitle: scan tracking whether the previous character was
cased and whether any cased character was seen. -/
def pyIsTitleAux : PyStr → Bool → Bool → Bool
  | [], _, seenCased => seenCased
  | c :: rest, prevCased, seenCased =>
    if c.isUpper then
      if prevCased then false else pyIsTitleAux rest true true
    else if c.isLower then
      if prevCased then pyIsTitleAux rest true true else false
    else pyIsTitleAux rest false seenCased

/-- Model of Python str.istitle (ASCII): uppercase letters only follow
uncased characters, lowercase letters only follow cased ones, and at least
one cased character occurs. -/
def pyIsTitle (t : PyStr) : Bool := pyIsTitleAux t false false

/-- Helper for pySplitWs, accumulating the current word reversed. -/
def pySplitAux : PyStr → PyStr → List PyStr
  | [], cur => if cur.isEmpty then [] else [cur.reverse]
  | c :: rest, cur =>
    if isPySpace c then
      if cur.isEmpty then pySplitAux rest [] else cur.reverse :: pySplitAux rest []
    else pySplitAux rest (c :: cur)

/-- Model of Python str.split with no argument: split on whitespace runs,
producing no empty words. -/
def pySplitWs (t : PyStr) : List PyStr := pySplitAux t []

/-- Removes w from the end of t when t ends with w. -/
def dropSuffix (t w : PyStr) : Option PyStr :=
  if w.isSuffixOf t then some (t.take (t.length - w.length)) else none

/-- The shape `[A-Z][A-Za-z\s]+` common to both SECTION_PATTERNS: an
uppercase letter followed by at least one letter or whitespace character. -/
def bodyOk : PyStr → Bool
  | [] => false
  | c :: cs => c.isUpper && !cs.isEmpty && cs.all (fun x => x.isAlpha || isPySpace x)

/-- The domain-vocabulary suffix words of the first SECTION_PATTERNS regex. -/
def sectionSuffixWords : List PyStr :=
  ["Details".toList, "Characteristics".toList, "Outcomes".toList,
   "Identification".toList, "Information".toList]

/-- Match of the first SECTION_PATTERNS regex
`^[A-Z][A-Za-z\s]+(?:Details|Characteristics|Outcomes|Identification|Information)$`:
the anchored suffix group must match one of the five words at the very end,
and the rest of the line must have the bodyOk shape. At most one of the five
words can be a suffix of a given line, so the existential over the
alternation is exact. -/
def pattern1 (t : PyStr) : Bool :=
  sectionSuffixWords.any (fun w =>
    match dropSuffix t w with
    | some body => bodyOk body
    | none => false)

/-- The character class `[A-Za-z\s:±]` of the second SECTION_PATTERNS regex. -/
def innerOk (m : PyStr) : Bool :=
  !m.isEmpty && m.all (fun c => c.isAlpha || isPySpace c || c == ':' || c == '±')

/-- Match of the second SECTION_PATTERNS regex
`^[A-Z][A-Za-z\s]+\([A-Za-z\s:±]+\)$`. Neither character class contains a
parenthesis, so the literal parentheses of the pattern must match the first
opening parenthesis of the line and a closing parenthesis that is its last
character. -/
def pattern2 (t : PyStr) : Bool :=
  match t.findIdx? (fun c => c == '(') with
  | none => false
  | some i =>
    match (t.drop (i + 1)).reverse with
    | c :: midRev => c == ')' && bodyOk (t.take i) && innerOk midRev
    | [] => false

def colonStr : PyStr := [':']

/-- Model of WordTemplateParser._is_section_header: a line ending in a colon
is never a header; otherwise the two shape patterns, then the
all-uppercase check, then the title-case check with at most six words. -/
def is_section_header (text : PyStr) : Bool :=
  if pyEndsWith text colonStr then false
  else if pattern1 text || pattern2 text then true
  else if pyIsUpper text || (pyIsTitle text && decide ((pySplitWs text).length ≤ 6)) then true
  else false

/-- Model of the Python in operator on strings: needle occurs as a
contiguous substring of hay. -/
def pyIn (needle : PyStr) : PyStr → Bool
  | [] => needle.isEmpty
  | c :: rest => needle.isPrefixOf (c :: rest) || pyIn needle rest

/-- The denylist of WordTemplateParser._is_likely_title. -/
def titleKeywords : List PyStr :=
  ["template".toList, "data extraction".toList, "meta-analysis".toList]

/-- Model of WordTemplateParser._is_likely_title: any denylisted substring
occurs in the lowercased text. -/
def is_likely_title (t : PyStr) : Bool :=
  titleKeywords.any (fun kw => pyIn kw (pyLower t))

/-- Model of re.match on FIELD_PATTERN `^(.+?):\s*(.*)$` for a paragraph
text (python-docx paragraph texts contain no newline characters): the
non-greedy group 1 is everything before the first colon that has at least
one character in front of it, and group 2 is the remainder after that colon
with the `\s*` whitespace consumed. -/
def fieldMatch (text : PyStr) : Option (PyStr × PyStr) :=
  match text with
  | [] => none
  | c :: rest =>
    match rest.findIdx? (fun x => x == ':') with
    | none => none
    | some j => some (c :: rest.take j, (rest.drop (j + 1)).dropWhile isPySpace)

/-- A table of a Word document, as the list of the cell texts of its rows.
A python-docx table row always has at least one cell. -/
structure WordTable where
  rows : List (List PyStr)
deriving DecidableEq

/-- A Word document as the Word parser reads it: the stream of paragraph
texts and the embedded tables. -/
structure WordDoc where
  paragraphs : List PyStr
  tables : List WordTable
deriving DecidableEq

namespace WordTemplateParser

/-- The fields emitted by the paragraph loop of WordTemplateParser.parse,
given the running current_section value. -/
def parseParasFields : List PyStr → PyStr → List TemplateField
  | [], _ => []
  | p :: ps, sec =>
    let text := pyStrip p
    if text.isEmpty then parseParasFields ps sec
    else if is_section_header text then parseParasFields ps text
    else
      match fieldMatch text with
      | some (g1, g2) =>
        let fname := pyStrip g1
        if is_likely_title fname then parseParasFields ps sec
        else TemplateField.make fname (pyStrip g2) sec :: parseParasFields ps sec
      | none => parseParasFields ps sec

/-- The value of current_section when the paragraph loop of
WordTemplateParser.parse completes. -/
def currentSectionAfter : List PyStr → PyStr → PyStr
  | [], sec => sec
  | p :: ps, sec =>
    let text := pyStrip p
    if text.isEmpty then currentSectionAfter ps sec
    else if is_section_header text then currentSectionAfter ps text
    else currentSectionAfter ps sec

/-- The field produced from one table row by WordTemplateParser._parse_table:
rows with fewer than two cells are skipped, the first two cell texts are
stripped, and the field is kept when the name is non-empty and not a likely
title. -/
def tableRowField (sec : PyStr) (cells : List PyStr) : List TemplateField :=
  match cells with
  | c0 :: c1 :: _ =>
    let fname := pyStrip c0
    if !fname.isEmpty && !is_likely_title fname then
      [TemplateField.make fname (pyStrip c1) sec]
    else []
  | _ => []

/-- Model of WordTemplateParser._parse_table: the first row is skipped when
its first cell text, stripped and lowercased, contains field or column;
every processed row goes through tableRowField with the given section. -/
def parse_table (rows : List (List PyStr)) (sec : PyStr) : List TemplateField :=
  match rows with
  | [] => []
  | r0 :: rest =>
    let firstCell := pyLower (pyStrip (r0.headD []))
    let headerRow :=
      pyIn ("field".toList) firstCell || pyIn ("column".toList) firstCell
    (if headerRow then [] else tableRowField sec r0) ++ concatMap (tableRowField sec) rest

/-- Model of WordTemplateParser.parse: the paragraph pass starting from the
empty current_section, followed by every table parsed with the
current_section value left by the paragraph pass. -/
def parse (doc : WordDoc) : List TemplateField :=
  parseParasFields doc.paragraphs [] ++
    concatMap (fun t => parse_table t.rows (currentSectionAfter doc.paragraphs []))
      doc.tables

end WordTemplateParser

/-! ## Excel parser (template_parser.py, ExcelTemplateParser) -/

/-- A column header as pandas presents it in df.columns: either a string or
a non-string value (for example a number). -/
inductive ColHeader where
  | str (s : PyStr)
  | nonstr
deriving DecidableEq

/-- One sheet of a workbook: its name and its column headers. -/
structure Sheet where
  name : PyStr
  columns : List ColHeader
deriving DecidableEq

/-- A workbook as pandas presents it: the ordered list of its sheets. -/
structure Workbook where
  sheets : List Sheet
deriving DecidableEq

namespace ExcelTemplateParser

def unnamedStr : PyStr := "Unnamed".toList

/-- The fields produced from one column header: string headers not starting
with Unnamed become a field named after the header with an empty
description and the sheet name as section. -/
def colField (sheetName : PyStr) : ColHeader → List TemplateField
  | ColHeader.str s =>
    if pyStartsWith s unnamedStr then [] else [TemplateField.make s [] sheetName]
  | ColHeader.nonstr => []

/-- Model of ExcelTemplateParser.parse: every sheet in order, every column
header in order. -/
def parse (wb : Workbook) : List TemplateField :=
  concatMap (fun sh => concatMap (colField sh.name) sh.columns) wb.sheets

end ExcelTemplateParser

/-! ## Format detection and parsing facade (template_parser.py) -/

/-- The extension part of os.path.splitext, for paths with the separator /:
the extension starts at the last dot of the final path component, unless
that component consists only of leading dots up to there. -/
def splitextExt (p : PyStr) : PyStr :=
  let base := (p.reverse.takeWhile (fun c => c != '/')).reverse
  let rest := base.dropWhile (fun c => c == '.')
  let tail := rest.reverse.takeWhile (fun c => c != '.')
  if tail.length < rest.length then '.' :: tail.reverse else []

inductive TemplateFormat where
  | word
  | excel
deriving DecidableEq

def dotDocx : PyStr := ".docx".toList
def dotXlsx : PyStr := ".xlsx".toList
def dotXls : PyStr := ".xls".toList

/-- Model of detect_template_format: .docx maps to word, .xlsx and .xls map
to excel, anything else to none. -/
def detect_template_format (filepath : PyStr) : Option TemplateFormat :=
  let ext := pyLower (splitextExt filepath)
  if ext = dotDocx then some TemplateFormat.word
  else if ext = dotXlsx ∨ ext = dotXls then some TemplateFormat.excel
  else none

/-- The failures of parse_template: FileNotFoundError and the two
ValueError cases, each carrying the offending path. -/
inductive TemplateError where
  | notFound (filepath : PyStr)
  | unsupportedFormat (filepath : PyStr)
  | emptyTemplate (filepath : PyStr)
deriving DecidableEq

/-- The filesystem as parse_template observes it: which paths exist and
what document or workbook content a path holds for the matching parser. -/
structure FileSystem where
  pathExists : PyStr → Bool
  wordDoc : PyStr → WordDoc
  workbook : PyStr → Workbook

/-- Model of parse_template: existence check, format detection, dispatch to
the matching parser, and rejection of an empty field list. -/
def parse_template (fs : FileSystem) (filepath : PyStr) :
    Except TemplateError (List TemplateField) :=
  if fs.pathExists filepath = false then
    Except.error (TemplateError.notFound filepath)
  else
    match detect_template_format filepath with
    | some TemplateFormat.word =>
      let fields := WordTemplateParser.parse (fs.wordDoc filepath)
      if fields.isEmpty then Except.error (TemplateError.emptyTemplate filepath)
      else Except.ok fields
    | some TemplateFormat.excel =>
      let fields := ExcelTemplateParser.parse (fs.workbook filepath)
      if fields.isEmpty then Except.error (TemplateError.emptyTemplate filepath)
      else Except.ok fields
    | none => Except.error (TemplateError.unsupportedFormat filepath)

/-- The field list the facade obtains from the parser selected by the
detected format. -/
def dispatchedFields (fs : FileSystem) (filepath : PyStr) : TemplateFormat → List TemplateField
  | TemplateFormat.word => WordTemplateParser.parse (fs.wordDoc filepath)
  | TemplateFormat.excel => ExcelTemplateParser.parse (fs.workbook filepath)

/-! ## Prompt synthesizer (create_prompt of gemini_api_extractor.py) -/

def generalStr : PyStr := "General".toList

/-- The section bucket a field is grouped under: its section, or General
when the section is empty. -/
def sectionKey (f : TemplateField) : PyStr :=
  if f.sectionName.isEmpty then generalStr else f.sectionName

/-- One step of the grouping dict: append the field to the bucket of its
key when the key is present, otherwise add a new key at the end, matching
insertion-ordered Python dict semantics. -/
def addToGroups :
    List (PyStr × List TemplateField) → PyStr → TemplateField →
      List (PyStr × List TemplateField)
  | [], k, f => [(k, [f])]
  | (k0, l) :: rest, k, f =>
    if k0 = k then (k0, l ++ [f]) :: rest
    else (k0, l) :: addToGroups rest k f

/-- The sections dict built by the grouping loop of create_prompt. -/
def groupFields (fields : List TemplateField) : List (PyStr × List TemplateField) :=
  fields.foldl (fun gs f => addToGroups gs (sectionKey f) f) []

/-- First-match lookup in the grouping dict. -/
def glookup : List (PyStr × List TemplateField) → PyStr → Option (List TemplateField)
  | [], _ => none
  | (k0, l) :: rest, k => if k0 = k then some l else glookup rest k

/-- The distinct keys of a key sequence in first-occurrence order. -/
def firstOccur (keys : List PyStr) : List PyStr :=
  keys.foldl (fun acc k => if k ∈ acc then acc else acc ++ [k]) []

/-- One field bullet of the prompt: the name alone when the description is
empty, otherwise name, colon, description. -/
def renderField (f : TemplateField) : PyStr :=
  "- ".toList ++ f.name ++
    (if f.description.isEmpty then [] else (": ".toList) ++ f.description) ++
    "\n".toList

/-- One section of the prompt: the banner followed by the bullets of its
fields in order. -/
def renderSection (g : PyStr × List TemplateField) : PyStr :=
  "--- ".toList ++ g.1 ++ " ---\n".toList ++ concatMap renderField g.2

/-- The fixed preamble of the prompt of gemini_api_extractor.py
(apostrophes written as the escape x27). -/
def apiPreamble : PyStr :=
  ("You are an expert scientific researcher. Extract the following information from the attached PDF study.\n").toList ++
  ("Return the result as a valid JSON object where keys are the \x27Field Name\x27 and values are the extracted text/numbers. If information is strictly missing, use null.\n").toList ++
  ("Do not hallucinate data. If you are unsure, extraction is better left as null.\n\n").toList

/-- The fixed closing instruction of the prompt of gemini_api_extractor.py. -/
def apiClosing : PyStr :=
  ("\nReturn ONLY the JSON object. No markdown formatting (like ```json), no preamble.").toList

/-- Model of create_prompt of gemini_api_extractor.py: preamble, one
rendered block per section of the grouping dict in insertion order, and
the closing instruction. -/
def create_prompt (fields : List TemplateField) : PyStr :=
  apiPreamble ++ concatMap renderSection (groupFields fields) ++ apiClosing

/-! ## JSON values and parsing (model of Python json.loads) -/

/-- JSON values as json.loads returns them; numbers are kept as their
source lexeme. Object members are kept as an association list in document
order. -/
inductive Json where
  | null
  | bool (b : Bool)
  | num (lexeme : PyStr)
  | str (s : PyStr)
  | arr (elems : List Json)
  | obj (members : List (PyStr × Json))

/-- Whitespace accepted between JSON tokens. -/
def isJsonWs (c : Char) : Bool :=
  c == ' ' || c == '\t' || c == '\n' || c == '\r'

def hexVal (c : Char) : Option Nat :=
  if c.isDigit then some (c.toNat - 48)
  else if 'a' ≤ c ∧ c ≤ 'f' then some (c.toNat - 87)
  else if 'A' ≤ c ∧ c ≤ 'F' then some (c.toNat - 55)
  else none

/-- The single-character string escapes of JSON, as a lookup table from
the escape letter to the denoted character. -/
def escTable : List (Char × Char) :=
  [('"', '"'), ('\\', '\\'), ('/', '/'), ('b', Char.ofNat 8), ('f', Char.ofNat 12),
   ('n', '\n'), ('r', '\r'), ('t', '\t')]

/-- The character denoted by a single-character JSON escape, when any. -/
def escChar (c : Char) : Option Char :=
  (escTable.find? (fun e => e.1 == c)).map Prod.snd

/-- Parse the body of a JSON string after the opening quote, decoding
escapes; unescaped control characters are rejected as json.loads does in
strict mode (surrogate pairing of x-u escapes is not modelled). -/
def parseJString : PyStr → Option (PyStr × PyStr)
  | [] => none
  | c :: rest =>
    if c == '"' then some ([], rest)
    else if c == '\\' then
      match rest with
      | [] => none
      | e :: rest2 =>
        if e == 'u' then
          match rest2 with
          | h1 :: h2 :: h3 :: h4 :: rest3 =>
            match hexVal h1, hexVal h2, hexVal h3, hexVal h4 with
            | some a, some b, some c2, some d =>
              match parseJString rest3 with
              | some (s, r) => some (Char.ofNat (((a * 16 + b) * 16 + c2) * 16 + d) :: s, r)
              | none => none
            | _, _, _, _ => none
          | _ => none
        else
          match escChar e with
          | some ch =>
            match parseJString rest2 with
            | some (s, r) => some (ch :: s, r)
            | none => none
          | none => none
    else if c.toNat < 32 then none
    else
      match parseJString rest with
      | some (s, r) => some (c :: s, r)
      | none => none

/-- The maximal run of number characters at the front of the input. -/
def numLexeme (s : PyStr) : PyStr :=
  s.takeWhile (fun c =>
    c.isDigit || c == '-' || c == '+' || c == '.' || c == 'e' || c == 'E')

/-- Consume one or more digits. -/
def digits1 (s : PyStr) : Option PyStr :=
  let d := s.takeWhile Char.isDigit
  if d.isEmpty then none else some (s.drop d.length)

/-- The integer part of a JSON number: a single zero or a nonzero digit
followed by digits. -/
def intPart : PyStr → Option PyStr
  | [] => none
  | c :: rest =>
    if c == '0' then some rest
    else if c.isDigit then some (rest.dropWhile Char.isDigit)
    else none

/-- The optional fraction part of a JSON number. -/
def fracPart : PyStr → Option PyStr
  | [] => some []
  | c :: rest => if c == '.' then digits1 rest else some (c :: rest)

/-- The optional exponent part of a JSON number. -/
def expPart : PyStr → Option PyStr
  | [] => some []
  | c :: rest =>
    if c == 'e' || c == 'E' then
      match rest with
      | d :: rest2 => if d == '+' || d == '-' then digits1 rest2 else digits1 rest
      | [] => none
    else some (c :: rest)

/-- Validity of a number lexeme per the JSON grammar
`-?(0|[1-9][0-9]*)(\.[0-9]+)?([eE][+-]?[0-9]+)?`. -/
def validNum (l : PyStr) : Bool :=
  let s := match l with
    | c :: rest => if c == '-' then rest else l
    | [] => l
  match intPart s with
  | none => false
  | some r1 =>
    match fracPart r1 with
    | none => false
    | some r2 =>
      match expPart r2 with
      | none => false
      | some r3 => r3.isEmpty

def lbraceChar : Char := Char.ofNat 123

def rbraceChar : Char := Char.ofNat 125

/-- The three parsing modes of the recursive-descent JSON parser: a value,
the members of an object after its opening brace, or the elements of an
array after its opening bracket. -/
inductive JMode where
  | value
  | members
  | elems

/-- Fuel-indexed recursive-descent JSON parser. Member lists come back as
Json.obj and element lists as Json.arr. -/
def parseJ : Nat → JMode → PyStr → Option (Json × PyStr)
  | 0, _, _ => none
  | fuel + 1, JMode.value, s =>
    match s.dropWhile isJsonWs with
    | [] => none
    | c :: rest =>
      if c == '"' then
        match parseJString rest with
        | some (body, r) => some (Json.str body, r)
        | none => none
      else if c == lbraceChar then
        match rest.dropWhile isJsonWs with
        | c2 :: r2 =>
          if c2 == rbraceChar then some (Json.obj [], r2)
          else
            match parseJ fuel JMode.members rest with
            | some (j, r) => some (j, r)
            | none => none
        | [] => none
      else if c == '[' then
        match rest.dropWhile isJsonWs with
        | c2 :: r2 =>
          if c2 == ']' then some (Json.arr [], r2)
          else
            match parseJ fuel JMode.elems rest with
            | some (j, r) => some (j, r)
            | none => none
        | [] => none
      else if c == 't' then
        if ("true".toList).isPrefixOf (c :: rest) then
          some (Json.bool true, (c :: rest).drop 4)
        else none
      else if c == 'f' then
        if ("false".toList).isPrefixOf (c :: rest) then
          some (Json.bool false, (c :: rest).drop 5)
        else none
      else if c == 'n' then
        if ("null".toList).isPrefixOf (c :: rest) then
          some (Json.null, (c :: rest).drop 4)
        else none
      else if c == '-' || c.isDigit then
        let lex := numLexeme (c :: rest)
        if validNum lex then some (Json.num lex, (c :: rest).drop lex.length) else none
      else none
  | fuel + 1, JMode.members, s =>
    match s.dropWhile isJsonWs with
    | c :: rest =>
      if c == '"' then
        match parseJString rest with
        | some (key, r1) =>
          match r1.dropWhile isJsonWs with
          | c2 :: r2 =>
            if c2 == ':' then
              match parseJ fuel JMode.value r2 with
              | some (v, r3) =>
                match r3.dropWhile isJsonWs with
                | c3 :: r4 =>
                  if c3 == ',' then
                    match parseJ fuel JMode.members r4 with
                    | some (Json.obj ms, rr) => some (Json.obj ((key, v) :: ms), rr)
                    | _ => none
                  else if c3 == rbraceChar then some (Json.obj [(key, v)], r4)
                  else none
                | [] => none
              | none => none
            else none
          | [] => none
        | none => none
      else none
    | [] => none
  | fuel + 1, JMode.elems, s =>
    match parseJ fuel JMode.value s with
    | some (v, r) =>
      match r.dropWhile isJsonWs with
      | c :: r2 =>
        if c == ',' then
          match parseJ fuel JMode.elems r2 with
          | some (Json.arr es, rr) => some (Json.arr (v :: es), rr)
          | _ => none
        else if c == ']' then some (Json.arr [v], r2)
        else none
      | [] => none
    | none => none

/-- Model of json.loads: parse one value and require only whitespace to
remain; any other outcome is a JSONDecodeError, modelled as none. -/
def jsonLoads (s : PyStr) : Option Json :=
  match parseJ (s.length + 1) JMode.value s with
  | some (v, rest) => if (rest.dropWhile isJsonWs).isEmpty then some v else none
  | none => none

/-! ## Response cleaning and per-record handling (gemini_api_extractor.py) -/

def fence3 : PyStr := "```".toList

/-- Model of clean_json_string: strip, then if the text starts with a
triple fence drop through the first newline when one exists and drop a
trailing triple fence when present, then strip again. -/
def clean_json_string (response_text : PyStr) : PyStr :=
  let text := pyStrip response_text
  let text :=
    if pyStartsWith text fence3 then
      let text :=
        match text.findIdx? (fun c => c == '\n') with
        | some i => text.drop (i + 1)
        | none => text
      if pyEndsWith text fence3 then text.take (text.length - 3) else text
    else text
  pyStrip text

def keySourceFile : PyStr := "Source File".toList

/-- Python dict item assignment on an association list: replace in place
when the key is present, otherwise append at the end. -/
def dictSet (kvs : List (PyStr × Json)) (k : PyStr) (v : Json) : List (PyStr × Json) :=
  if kvs.any (fun p => p.1 == k) then
    kvs.map (fun p => if p.1 == k then (k, v) else p)
  else kvs ++ [(k, v)]

/-- Model of the response-parsing step of extract_study_with_api: clean the
text, parse it as JSON, and set the Source File key on the resulting
object. A JSONDecodeError and the TypeError raised by item assignment on a
non-object value are both caught by the surrounding handlers, so every
non-object outcome yields None for this record. -/
def parse_response (response_text basename : PyStr) : Option (List (PyStr × Json)) :=
  match jsonLoads (clean_json_string response_text) with
  | some (Json.obj kvs) => some (dictSet kvs keySourceFile (Json.str basename))
  | some _ => none
  | none => none

/-! ## Record reconciliation and incremental save (main loops of
gemini_api_extractor.py and gemini_extractor.py) -/

/-- First-match lookup of a key in an association list, as a dict field
access on the one-row DataFrame. -/
def dlookup : List (PyStr × α) → PyStr → Option α
  | [], _ => none
  | (k0, v) :: rest, k => if k0 = k then some v else dlookup rest k

/-- The column list of the one-row DataFrame after the fill loop
`for c in ALL_COLUMNS: if c not in df.columns: df[c] = None`: missing
canonical columns are appended once each, in order. -/
def fillColumns (cols allColumns : List PyStr) : List PyStr :=
  allColumns.foldl (fun cs c => if c ∈ cs then cs else cs ++ [c]) cols

/-- Model of the reconciliation step: build the one-row DataFrame from the
raw record, fill the missing canonical columns with None, and select
the Source File column followed by the canonical columns present; selecting
a column absent from the frame raises a KeyError, modelled as none. A
cell holds some value for a key of the raw record and none for a filled
column. -/
def reconcile (allColumns : List PyStr) (raw : List (PyStr × Json)) :
    Option (List (PyStr × Option Json)) :=
  let cols0 := raw.map Prod.fst
  let colsAfter := fillColumns cols0 allColumns
  let sel := keySourceFile :: allColumns.filter (fun c => decide (c ∈ colsAfter))
  if sel.all (fun c => decide (c ∈ colsAfter)) then
    some (sel.map (fun c => (c, dlookup raw c)))
  else none

/-- The table written by the incremental save: the previously persisted
rows, when the output file exists, with the new rows concatenated beneath
in order (pd.concat with ignore_index). -/
def appendSave (existing : Option (List α)) (newRows : List α) : List α :=
  (existing.getD []) ++ newRows

/-- Model of the file content reachable when the in-place overwrite
performed by DataFrame.to_excel on the output path fails part-way: the
target is truncated on open and the serialized rows are written
sequentially, so a failure after flushed rows leaves exactly that prefix.
There is no temporary file or rename step in the save path. -/
def to_excel_interrupted (newRows : List α) (flushed : Nat) : List α :=
  newRows.take flushed

/-! ## Claim theorems -/

/-- C1: for every filesystem and path, parse_template fails with
FileNotFoundError when the path does not exist; otherwise it fails with the
unsupported-format ValueError when the detector returns none; otherwise it
dispatches to the parser of the detected format and fails with the
empty-template ValueError exactly when that parser returns no fields,
returning the non-empty field list in every other case; an empty field
list is never returned as success. -/
theorem parse_template_contract (fs : FileSystem) (p : PyStr) :
    (fs.pathExists p = false →
      parse_template fs p = Except.error (TemplateError.notFound p)) ∧
    (fs.pathExists p = true → detect_template_format p = none →
      parse_template fs p = Except.error (TemplateError.unsupportedFormat p)) ∧
    (∀ fmt, fs.pathExists p = true → detect_template_format p = some fmt →
      (dispatchedFields fs p fmt = [] →
        parse_template fs p = Except.error (TemplateError.emptyTemplate p)) ∧
      (dispatchedFields fs p fmt ≠ [] →
        parse_template fs p = Except.ok (dispatchedFields fs p fmt))) ∧
    (∀ l, parse_template fs p = Except.ok l → l ≠ []) := by
  refine ⟨?_, ?_, ?_, ?_⟩
  · intro h
    simp [parse_template, h]
  · intro h hd
    simp [parse_template, h, hd]
  · intro fmt h hd
    cases fmt with
    | word =>
      constructor
      · intro he
        simp only [dispatchedFields] at he
        simp [parse_template, h, hd, he]
      · intro he
        simp only [dispatchedFields] at he ⊢
        have hne : (WordTemplateParser.parse (fs.wordDoc p)).isEmpty = false := by
          cases hfe : WordTemplateParser.parse (fs.wordDoc p) with
          | nil => exact absurd hfe he
          | cons a l => rfl
        simp [parse_template, h, hd, hne]
    | excel =>
      constructor
      · intro he
        simp only [dispatchedFields] at he
        simp [parse_template, h, hd, he]
      · intro he
        simp only [dispatchedFields] at he ⊢
        have hne : (ExcelTemplateParser.parse (fs.workbook p)).isEmpty = false := by
          cases hfe : ExcelTemplateParser.parse (fs.workbook p) with
          | nil => exact absurd hfe he
          | cons a l => rfl
        simp [parse_template, h, hd, hne]
  · intro l hl hnil
    subst hnil
    by_cases h : fs.pathExists p = true
    · cases hd : detect_template_format p with
      | none => simp [parse_template, h, hd] at hl
      | some fmt =>
        cases fmt with
        | word =>
          simp only [parse_template, h, hd, Bool.true_eq_false, if_false] at hl
          split at hl
          · simp at hl
          · next hne =>
            rw [Except.ok.injEq] at hl
            rw [hl] at hne
            simp at hne
        | excel =>
          simp only [parse_template, h, hd, Bool.true_eq_false, if_false] at hl
          split at hl
          · simp at hl
          · next hne =>
            rw [Except.ok.injEq] at hl
            rw [hl] at hne
            simp at hne
    · have hf : fs.pathExists p = false := by
        cases hpe : fs.pathExists p
        · rfl
        · exact absurd hpe h
      simp [parse_template, hf] at hl

/-- A filesystem holding a one-field Word document at every path. -/
def fsC1 : FileSystem :=
  { pathExists := fun _ => true,
    wordDoc := fun _ => { paragraphs := ["Author:".toList], tables := [] },
    workbook := fun _ => { sheets := [] } }

def pathC1 : PyStr := "template.docx".toList

theorem parse_template_contract_witness :
    parse_template fsC1 pathC1 =
      Except.ok [TemplateField.make ("Author".toList) [] []] :=
  ((((parse_template_contract fsC1 pathC1).2.2.1 TemplateFormat.word) rfl (by rfl)).2
    (by decide)).trans (by rfl)

/-- C3: every line of text ending with a colon is never classified as a
section header, whatever the shape patterns, the uppercase check or the
title-case check would say: the colon check is evaluated first and
short-circuits. -/
theorem colon_line_never_section_header (text : PyStr)
    (h : pyEndsWith text colonStr = true) : is_section_header text = false := by
  simp [is_section_header, h]

theorem colon_line_never_section_header_witness :
    is_section_header ("STUDY OUTCOMES:".toList) = false :=
  colon_line_never_section_header _ (by decide)

def fencedInput : PyStr := "```json\n\x7b\"a\":1\x7d\n```".toList

def innerJson : PyStr := "\x7b\"a\":1\x7d".toList

def notJsonText : PyStr := "not json at all".toList

/-- C5: the fenced example cleans to its JSON payload and parses as a JSON
object, and whenever the cleaned text fails to parse as JSON the handling
of that record yields None rather than an unhandled fault. -/
theorem clean_json_contract :
    clean_json_string fencedInput = innerJson ∧
    jsonLoads innerJson = some (Json.obj [("a".toList, Json.num ("1".toList))]) ∧
    (∀ t b, jsonLoads (clean_json_string t) = none → parse_response t b = none) := by
  refine ⟨by decide, by rfl, ?_⟩
  intro t b h
  simp [parse_response, h]

theorem clean_json_contract_witness :
    parse_response notJsonText ("x.pdf".toList) = none :=
  clean_json_contract.2.2 notJsonText ("x.pdf".toList) (by rfl)

def rowA : PyStr := "row1".toList

def rowB : PyStr := "row2".toList

def rowC : PyStr := "row3".toList

/-- C8: the incremental save concatenates the new row beneath the existing
rows preserving their order, but persists by a plain in-place overwrite:
an overwrite of the appended table that fails after one row leaves a file
state that is neither the old table nor the new one, so a mid-write
failure does leave the old file state partially overwritten. -/
theorem save_overwrite_not_atomic :
    appendSave (some [rowA, rowB]) [rowC] = [rowA, rowB, rowC] ∧
    to_excel_interrupted (appendSave (some [rowA, rowB]) [rowC]) 1 ≠ [rowA, rowB] ∧
    to_excel_interrupted (appendSave (some [rowA, rowB]) [rowC]) 1 ≠
      appendSave (some [rowA, rowB]) [rowC] := by
  exact ⟨rfl, by decide, by decide⟩

theorem mem_fillColumns_left {x : PyStr} :
    ∀ (allColumns cols : List PyStr), x ∈ cols → x ∈ fillColumns cols allColumns := by
  intro allColumns
  induction allColumns with
  | nil => intro cols h; exact h
  | cons c cs ih =>
    intro cols h
    unfold fillColumns
    simp only [List.foldl_cons]
    by_cases hc : c ∈ cols
    · rw [if_pos hc]
      exact ih cols h
    · rw [if_neg hc]
      exact ih (cols ++ [c]) (List.mem_append_left _ h)

theorem mem_fillColumns_right {x : PyStr} :
    ∀ (allColumns cols : List PyStr), x ∈ allColumns → x ∈ fillColumns cols allColumns := by
  intro allColumns
  induction allColumns with
  | nil => intro cols h; cases h
  | cons c cs ih =>
    intro cols h
    unfold fillColumns
    simp only [List.foldl_cons]
    rcases List.mem_cons.mp h with rfl | hx
    · by_cases hc : x ∈ cols
      · rw [if_pos hc]
        exact mem_fillColumns_left cs cols hc
      · rw [if_neg hc]
        exact mem_fillColumns_left cs (cols ++ [x])
          (List.mem_append_right _ (List.mem_singleton.mpr rfl))
    · by_cases hc : c ∈ cols
      · rw [if_pos hc]
        exact ih cols hx
      · rw [if_neg hc]
        exact ih (cols ++ [c]) hx

theorem dlookup_mem {α : Type} {raw : List (PyStr × α)} {k : PyStr} {v : α}
    (h : dlookup raw k = some v) : k ∈ raw.map Prod.fst := by
  induction raw with
  | nil => cases h
  | cons p rest ih =>
    obtain ⟨k0, v0⟩ := p
    by_cases hk : k0 = k
    · subst hk
      exact List.mem_cons_self _ _
    · simp only [dlookup, if_neg hk] at h
      exact List.mem_cons_of_mem _ (ih h)

/-- C2: for every canonical column list and raw record containing the
reserved Source File key, the reconciliation step produces the row whose
column order is the Source File identifier followed by every canonical
field in order, holding the raw value for keys of the record, the None
fill for canonical fields absent from the record, and dropping every
raw-record key that is not canonical. -/
theorem reconcile_row (allColumns : List PyStr) (raw : List (PyStr × Json))
    (v : Json) (h : dlookup raw keySourceFile = some v) :
    reconcile allColumns raw =
      some ((keySourceFile, some v) ::
        allColumns.map (fun c => (c, dlookup raw c))) := by
  unfold reconcile
  dsimp only
  have hsf : keySourceFile ∈ fillColumns (raw.map Prod.fst) allColumns :=
    mem_fillColumns_left allColumns _ (dlookup_mem h)
  have hall : ∀ c ∈ allColumns, c ∈ fillColumns (raw.map Prod.fst) allColumns :=
    fun c hc => mem_fillColumns_right allColumns _ hc
  have hfilter :
      allColumns.filter
          (fun c => decide (c ∈ fillColumns (raw.map Prod.fst) allColumns)) =
        allColumns :=
    List.filter_eq_self.mpr (fun c hc => decide_eq_true (hall c hc))
  rw [hfilter]
  have hcond : ((keySourceFile :: allColumns).all
      (fun c => decide (c ∈ fillColumns (raw.map Prod.fst) allColumns))) = true := by
    rw [List.all_eq_true]
    intro c hc
    rcases List.mem_cons.mp hc with rfl | hc2
    · exact decide_eq_true hsf
    · exact decide_eq_true (hall c hc2)
  rw [if_pos hcond]
  simp only [List.map_cons, h]

def colX : PyStr := "X".toList

def colY : PyStr := "Y".toList

def colZ : PyStr := "Z".toList

def rawC2 : List (PyStr × Json) :=
  [(colX, Json.str ("1".toList)), ("W".toList, Json.str ("ignored".toList)),
   (keySourceFile, Json.str ("doc1".toList))]

theorem reconcile_row_witness :
    reconcile [colX, colY, colZ] rawC2 =
      some [(keySourceFile, some (Json.str ("doc1".toList))),
            (colX, some (Json.str ("1".toList))), (colY, none), (colZ, none)] :=
  (reconcile_row [colX, colY, colZ] rawC2 (Json.str ("doc1".toList)) (by rfl)).trans
    (by rfl)

def sheetS1 : Sheet :=
  { name := "S1".toList,
    columns := [ColHeader.str ("A".toList), ColHeader.str ("B".toList)] }

def sheetS2 : Sheet :=
  { name := "S2".toList, columns := [ColHeader.str ("C".toList)] }

def wbC6 : Workbook := { sheets := [sheetS1, sheetS2] }

/-- C6: parsing the workbook with sheet S1 carrying columns A, B and sheet
S2 carrying column C yields exactly the three fields A, B, C with sections
S1, S1, S2 in that order and empty descriptions; in general every emitted
field has an empty description and stems from a string column header of
some sheet, not starting with Unnamed, with the sheet name as its section,
and conversely every such header is emitted. -/
theorem excel_roundtrip :
    ExcelTemplateParser.parse wbC6 =
      [TemplateField.make ("A".toList) [] ("S1".toList),
       TemplateField.make ("B".toList) [] ("S1".toList),
       TemplateField.make ("C".toList) [] ("S2".toList)] ∧
    (∀ wb f, f ∈ ExcelTemplateParser.parse wb →
      f.description = [] ∧
      ∃ sh, sh ∈ wb.sheets ∧ f.sectionName = pyStrip sh.name ∧
        ∃ s, ColHeader.str s ∈ sh.columns ∧
          pyStartsWith s ExcelTemplateParser.unnamedStr = false ∧
          f.name = pyStrip s) ∧
    (∀ wb sh s, sh ∈ wb.sheets → ColHeader.str s ∈ sh.columns →
      pyStartsWith s ExcelTemplateParser.unnamedStr = false →
      TemplateField.make s [] sh.name ∈ ExcelTemplateParser.parse wb) := by
  refine ⟨by rfl, ?_, ?_⟩
  · intro wb f hf
    unfold ExcelTemplateParser.parse at hf
    rcases mem_concatMap.mp hf with ⟨sh, hsh, hf2⟩
    rcases mem_concatMap.mp hf2 with ⟨col, hcol, hf3⟩
    cases col with
    | nonstr => simp [ExcelTemplateParser.colField] at hf3
    | str s =>
      cases hu : pyStartsWith s ExcelTemplateParser.unnamedStr with
      | true =>
        simp [ExcelTemplateParser.colField, hu] at hf3
      | false =>
        simp only [ExcelTemplateParser.colField, hu, Bool.false_eq_true, if_false,
          List.mem_singleton] at hf3
        subst hf3
        exact ⟨rfl, sh, hsh, rfl, s, hcol, hu, rfl⟩
  · intro wb sh s hsh hcol hu
    unfold ExcelTemplateParser.parse
    refine mem_concatMap.mpr ⟨sh, hsh, ?_⟩
    refine mem_concatMap.mpr ⟨ColHeader.str s, hcol, ?_⟩
    simp [ExcelTemplateParser.colField, hu]

theorem excel_roundtrip_witness :
    TemplateField.make ("A".toList) [] ("S1".toList) ∈ ExcelTemplateParser.parse wbC6 :=
  excel_roundtrip.2.2 wbC6 sheetS1 ("A".toList) (by decide) (by decide) (by rfl)

/-- Every field emitted by the paragraph pass has a name that survives the
title filter and is non-empty after trimming. -/
theorem parseParasFields_mem :
    ∀ (ps : List PyStr) (sec : PyStr) (f : TemplateField),
      f ∈ WordTemplateParser.parseParasFields ps sec →
      is_likely_title f.name = false ∧ f.name ≠ [] := by
  intro ps
  induction ps with
  | nil => intro sec f h; cases h
  | cons p ps ih =>
    intro sec f h
    simp only [WordTemplateParser.parseParasFields] at h
    by_cases h1 : (pyStrip p).isEmpty
    · rw [if_pos h1] at h
      exact ih sec f h
    · rw [if_neg h1] at h
      by_cases h2 : is_section_header (pyStrip p)
      · rw [if_pos h2] at h
        exact ih (pyStrip p) f h
      · rw [if_neg h2] at h
        cases hm : fieldMatch (pyStrip p) with
        | none =>
          rw [hm] at h
          exact ih sec f h
        | some pr =>
          obtain ⟨g1, g2⟩ := pr
          rw [hm] at h
          dsimp only at h
          by_cases h3 : is_likely_title (pyStrip g1)
          · rw [if_pos h3] at h
            exact ih sec f h
          · rw [if_neg h3] at h
            rcases List.mem_cons.mp h with rfl | hrec
            · constructor
              · show is_likely_title (pyStrip (pyStrip g1)) = false
                rw [pyStrip_idem]
                exact eq_false_of_ne_true h3
              · show pyStrip (pyStrip g1) ≠ []
                rw [pyStrip_idem]
                cases hp : pyStrip p with
                | nil =>
                  rw [hp] at h1
                  exact absurd rfl h1
                | cons c rest =>
                  have hc : isPySpace c = false := pyStrip_head hp
                  rw [hp] at hm
                  simp only [fieldMatch] at hm
                  cases hj : rest.findIdx? (fun x => x == ':') with
                  | none => rw [hj] at hm; cases hm
                  | some j =>
                    rw [hj] at hm
                    simp only [Option.some.injEq, Prod.mk.injEq] at hm
                    obtain ⟨hg1, _⟩ := hm
                    intro hnil
                    have hcmem : c ∈ g1 := by
                      rw [← hg1]
                      exact List.mem_cons_self _ _
                    have := pyStrip_eq_nil_iff.mp hnil c hcmem
                    rw [hc] at this
                    cases this
            · exact ih sec f hrec

/-- Every field emitted from a table row survives the title filter, has a
non-empty trimmed name, and carries the stripped given section. -/
theorem tableRowField_mem {sec : PyStr} {cells : List PyStr} {f : TemplateField}
    (h : f ∈ WordTemplateParser.tableRowField sec cells) :
    is_likely_title f.name = false ∧ f.name ≠ [] ∧ f.sectionName = pyStrip sec := by
  unfold WordTemplateParser.tableRowField at h
  cases cells with
  | nil => cases h
  | cons c0 rest =>
    cases rest with
    | nil => cases h
    | cons c1 _ =>
      dsimp only at h
      by_cases hg : (!(pyStrip c0).isEmpty && !is_likely_title (pyStrip c0)) = true
      · rw [if_pos hg] at h
        rcases List.mem_singleton.mp h with rfl
        rw [Bool.and_eq_true, Bool.not_eq_true', Bool.not_eq_true'] at hg
        obtain ⟨hne, hti⟩ := hg
        refine ⟨?_, ?_, rfl⟩
        · show is_likely_title (pyStrip (pyStrip c0)) = false
          rw [pyStrip_idem]
          exact hti
        · show pyStrip (pyStrip c0) ≠ []
          rw [pyStrip_idem]
          intro hnil
          rw [hnil] at hne
          cases hne
      · rw [if_neg hg] at h
        cases h

/-- Every field emitted by the table pass satisfies the same properties. -/
theorem parse_table_mem {rows : List (List PyStr)} {sec : PyStr} {f : TemplateField}
    (h : f ∈ WordTemplateParser.parse_table rows sec) :
    is_likely_title f.name = false ∧ f.name ≠ [] ∧ f.sectionName = pyStrip sec := by
  unfold WordTemplateParser.parse_table at h
  cases rows with
  | nil => cases h
  | cons r0 rest =>
    dsimp only at h
    rcases List.mem_append.mp h with h0 | hr
    · by_cases hh :
        (pyIn ("field".toList) (pyLower (pyStrip (r0.headD []))) ||
          pyIn ("column".toList) (pyLower (pyStrip (r0.headD [])))) = true
      · rw [if_pos hh] at h0
        cases h0
      · rw [if_neg hh] at h0
        exact tableRowField_mem h0
    · rcases mem_concatMap.mp hr with ⟨r, _, hf⟩
      exact tableRowField_mem hf

/-- C4: no field emitted by the Word parser, from the paragraph pass or
from any table, has a name containing a denylisted boilerplate substring
case-insensitively: the title filter holds of every output name. -/
theorem word_no_title_fields (doc : WordDoc) (f : TemplateField)
    (hf : f ∈ WordTemplateParser.parse doc) : is_likely_title f.name = false := by
  unfold WordTemplateParser.parse at hf
  rcases List.mem_append.mp hf with hp | ht
  · exact (parseParasFields_mem doc.paragraphs [] f hp).1
  · rcases mem_concatMap.mp ht with ⟨t, _, hf2⟩
    exact (parse_table_mem hf2).1

def docC4 : WordDoc := { paragraphs := ["Author:".toList], tables := [] }

theorem word_no_title_fields_witness :
    is_likely_title (TemplateField.make ("Author".toList) [] []).name = false :=
  word_no_title_fields docC4 (TemplateField.make ("Author".toList) [] []) (by decide)

/-- The stripped non-blank lines of the paragraph stream that the header
classifier accepts, in order. -/
def sectionHeadersOf (paras : List PyStr) : List PyStr :=
  (paras.map pyStrip).filter (fun t => !t.isEmpty && is_section_header t)

/-- The current_section value left by the paragraph loop is the last
accepted section header, or the starting value when none occurs. -/
theorem currentSectionAfter_eq :
    ∀ (ps : List PyStr) (sec : PyStr),
      WordTemplateParser.currentSectionAfter ps sec = (sectionHeadersOf ps).getLastD sec := by
  intro ps
  induction ps with
  | nil => intro sec; rfl
  | cons p ps ih =>
    intro sec
    simp only [WordTemplateParser.currentSectionAfter, sectionHeadersOf, List.map_cons,
      List.filter_cons]
    by_cases h1 : (pyStrip p).isEmpty
    · rw [if_pos h1]
      have hp : (!(pyStrip p).isEmpty && is_section_header (pyStrip p)) = false := by
        rw [h1]; rfl
      rw [hp]
      exact ih sec
    · rw [if_neg h1]
      by_cases h2 : is_section_header (pyStrip p)
      · rw [if_pos h2]
        have hp : (!(pyStrip p).isEmpty && is_section_header (pyStrip p)) = true := by
          rw [h2, Bool.and_true, Bool.not_eq_true']
          cases hq : (pyStrip p).isEmpty
          · rfl
          · exact absurd hq h1
        rw [hp]
        simp only [if_true]
        rw [List.getLastD_cons]
        exact ih (pyStrip p)
      · rw [if_neg h2]
        have hp : (!(pyStrip p).isEmpty && is_section_header (pyStrip p)) = false := by
          rw [eq_false_of_ne_true h2, Bool.and_false]
        rw [hp]
        exact ih sec

/-- The last observed header is itself a stripped string. -/
theorem sectionHeadersOf_getLastD_stripped (ps : List PyStr) :
    pyStrip ((sectionHeadersOf ps).getLastD []) = (sectionHeadersOf ps).getLastD [] := by
  rw [List.getLastD_eq_getLast?]
  cases hq : (sectionHeadersOf ps).getLast? with
  | none => rfl
  | some x =>
    have hq2 : x ∈ (sectionHeadersOf ps).getLast? := hq
    rcases List.mem_getLast?_eq_getLast hq2 with ⟨hne, hxl⟩
    have hx : x ∈ sectionHeadersOf ps := by
      rw [hxl]
      exact List.getLast_mem hne
    have hx2 : x ∈ ps.map pyStrip := List.mem_of_mem_filter hx
    rcases List.mem_map.mp hx2 with ⟨p, _, rfl⟩
    exact pyStrip_idem p

/-- C7: the Word parser output is the paragraph fields followed by the
table fields, every table being parsed with the last section header
observed in the paragraph stream (the empty string when none occurred),
and every table-derived field carries exactly that section value. -/
theorem word_table_sections (doc : WordDoc) :
    WordTemplateParser.parse doc =
      WordTemplateParser.parseParasFields doc.paragraphs [] ++
        concatMap (fun t => WordTemplateParser.parse_table t.rows
          ((sectionHeadersOf doc.paragraphs).getLastD [])) doc.tables ∧
    (∀ f, f ∈ concatMap (fun t => WordTemplateParser.parse_table t.rows
        ((sectionHeadersOf doc.paragraphs).getLastD [])) doc.tables →
      f.sectionName = (sectionHeadersOf doc.paragraphs).getLastD []) := by
  constructor
  · unfold WordTemplateParser.parse
    rw [currentSectionAfter_eq]
  · intro f hf
    rcases mem_concatMap.mp hf with ⟨t, _, hf2⟩
    rw [(parse_table_mem hf2).2.2]
    exact sectionHeadersOf_getLastD_stripped doc.paragraphs

def docC7 : WordDoc :=
  { paragraphs := ["STUDY DETAILS".toList, "Author:".toList],
    tables := [{ rows := [["Country".toList, "name of country".toList]] }] }

theorem word_table_sections_witness :
    (TemplateField.make ("Country".toList) ("name of country".toList)
        ("STUDY DETAILS".toList)).sectionName =
      (sectionHeadersOf docC7.paragraphs).getLastD [] :=
  (word_table_sections docC7).2
    (TemplateField.make ("Country".toList) ("name of country".toList)
      ("STUDY DETAILS".toList)) (by decide)

def wbBad : Workbook :=
  { sheets := [{ name := "S".toList, columns := [ColHeader.str (" ".toList)] }] }

/-- C10 counterexample: a sheet whose single string column header is one
space character makes the Excel parser emit exactly one field, and that
field has the empty trimmed name, so not every parser path filters
empty-name candidates. -/
theorem excel_emits_empty_name :
    (ExcelTemplateParser.parse wbBad).map TemplateField.name = [[]] := by decide

/-- A column header that does not make the Excel parser emit an empty
name: non-string headers produce nothing and string headers must not be
whitespace-only. -/
def headerNonblank : ColHeader → Bool
  | ColHeader.str s => !(pyStrip s).isEmpty
  | ColHeader.nonstr => true

/-- C10 amended: the Word parser never emits a field with an empty trimmed
name, on the paragraph pass or the table pass; the Excel parser can emit
one, exactly from a whitespace-only string column header, so it emits none
whenever every string column header of the workbook has a non-whitespace
character. -/
theorem parser_nonempty_names (doc : WordDoc) (wb : Workbook)
    (hwb : ∀ sh ∈ wb.sheets, ∀ h ∈ sh.columns, headerNonblank h = true) :
    (∀ f ∈ WordTemplateParser.parse doc, f.name ≠ []) ∧
    (∀ f ∈ ExcelTemplateParser.parse wb, f.name ≠ []) := by
  constructor
  · intro f hf
    unfold WordTemplateParser.parse at hf
    rcases List.mem_append.mp hf with hp | ht
    · exact (parseParasFields_mem doc.paragraphs [] f hp).2
    · rcases mem_concatMap.mp ht with ⟨t, _, hf2⟩
      exact (parse_table_mem hf2).2.1
  · intro f hf
    unfold ExcelTemplateParser.parse at hf
    rcases mem_concatMap.mp hf with ⟨sh, hsh, hf2⟩
    rcases mem_concatMap.mp hf2 with ⟨col, hcol, hf3⟩
    cases col with
    | nonstr => simp [ExcelTemplateParser.colField] at hf3
    | str s =>
      cases hu : pyStartsWith s ExcelTemplateParser.unnamedStr with
      | true => simp [ExcelTemplateParser.colField, hu] at hf3
      | false =>
        simp only [ExcelTemplateParser.colField, hu, Bool.false_eq_true, if_false,
          List.mem_singleton] at hf3
        subst hf3
        have hnb := hwb sh hsh (ColHeader.str s) hcol
        simp only [headerNonblank] at hnb
        show pyStrip s ≠ []
        intro hnil
        rw [hnil] at hnb
        cases hnb

def docC10 : WordDoc := { paragraphs := ["Author:".toList], tables := [] }

def wbC10 : Workbook :=
  { sheets := [{ name := "S".toList, columns := [ColHeader.str ("A".toList)] }] }

theorem parser_nonempty_names_witness :
    (TemplateField.make ("Author".toList) [] []).name ≠ [] :=
  (parser_nonempty_names docC10 wbC10 (by decide)).1
    (TemplateField.make ("Author".toList) [] []) (by decide)

/-- Adding a field to the grouping dict leaves the key list unchanged when
the key is present and appends it at the end otherwise. -/
theorem addToGroups_keys (k : PyStr) (f : TemplateField) :
    ∀ gs : List (PyStr × List TemplateField),
      (addToGroups gs k f).map Prod.fst =
        if k ∈ gs.map Prod.fst then gs.map Prod.fst else gs.map Prod.fst ++ [k] := by
  intro gs
  induction gs with
  | nil => simp [addToGroups]
  | cons g rest ih =>
    obtain ⟨k0, l⟩ := g
    by_cases hk : k0 = k
    · subst hk
      simp [addToGroups]
    · simp only [addToGroups, if_neg hk, List.map_cons, ih]
      by_cases hmem : k ∈ rest.map Prod.fst
      · rw [if_pos hmem, if_pos (List.mem_cons_of_mem _ hmem)]
      · rw [if_neg hmem, if_neg ?_, List.cons_append]
        intro hc
        rcases List.mem_cons.mp hc with h | h
        · exact hk h.symm
        · exact hmem h

/-- The key list of the grouping fold equals the first-occurrence fold on
the key sequence. -/
theorem foldl_groups_keys (fields : List TemplateField) :
    ∀ gs : List (PyStr × List TemplateField),
      (fields.foldl (fun g f => addToGroups g (sectionKey f) f) gs).map Prod.fst =
        fields.foldl
          (fun acc f => if sectionKey f ∈ acc then acc else acc ++ [sectionKey f])
          (gs.map Prod.fst) := by
  induction fields with
  | nil => intro gs; rfl
  | cons f fs ih =>
    intro gs
    simp only [List.foldl_cons]
    rw [ih (addToGroups gs (sectionKey f) f), addToGroups_keys]

/-- The section banners of the grouped fields are the distinct section
keys in first-occurrence order. -/
theorem groupFields_keys_first (fields : List TemplateField) :
    (groupFields fields).map Prod.fst = firstOccur (fields.map sectionKey) := by
  unfold groupFields firstOccur
  rw [foldl_groups_keys, List.foldl_map]
  rfl

/-- Looking a key up after adding a field: the bucket of the added key
grows by that field (from empty when the key was new); other keys are
unaffected. -/
theorem glookup_addToGroups (k0 k : PyStr) (f : TemplateField) :
    ∀ gs, glookup (addToGroups gs k f) k0 =
      if k0 = k then some ((glookup gs k).getD [] ++ [f]) else glookup gs k0 := by
  intro gs
  induction gs with
  | nil =>
    by_cases hk : k0 = k
    · subst hk
      simp [addToGroups, glookup]
    · have hk2 : ¬(k = k0) := fun h => hk h.symm
      simp [addToGroups, glookup, hk, hk2]
  | cons g rest ih =>
    obtain ⟨k1, l⟩ := g
    by_cases h1 : k1 = k
    · subst h1
      by_cases h0 : k1 = k0
      · subst h0
        simp [addToGroups, glookup]
      · have h02 : ¬(k0 = k1) := fun h => h0 h.symm
        simp [addToGroups, glookup, h0, h02]
    · by_cases h0 : k1 = k0
      · subst h0
        simp [addToGroups, glookup, h1]
      · simp [addToGroups, glookup, h0, h1, ih]

/-- The bucket of a key after folding a field list into the grouping dict:
the fields of that key are appended, in order, to whatever bucket the key
already had. -/
theorem glookup_groupFold (k : PyStr) :
    ∀ (fields : List TemplateField) (gs : List (PyStr × List TemplateField)),
      glookup (fields.foldl (fun g f => addToGroups g (sectionKey f) f) gs) k =
        match glookup gs k with
        | some l => some (l ++ fields.filter (fun f => decide (sectionKey f = k)))
        | none =>
          if (fields.filter (fun f => decide (sectionKey f = k))).isEmpty then none
          else some (fields.filter (fun f => decide (sectionKey f = k))) := by
  intro fields
  induction fields with
  | nil =>
    intro gs
    simp only [List.foldl_nil, List.filter_nil]
    cases h : glookup gs k with
    | none => simp
    | some l => simp
  | cons f fs ih =>
    intro gs
    simp only [List.foldl_cons, List.filter_cons]
    rw [ih, glookup_addToGroups]
    by_cases hk : sectionKey f = k
    · rw [if_pos hk.symm]
      subst hk
      rw [decide_eq_true rfl]
      simp only [if_true]
      cases hg : glookup gs (sectionKey f) with
      | none =>
        simp only [Option.getD_none, List.nil_append, List.singleton_append]
        rfl
      | some l =>
        simp only [Option.getD_some, List.append_assoc, List.singleton_append]
    · rw [if_neg (fun h => hk h.symm), decide_eq_false hk]
      simp only [Bool.false_eq_true, if_false]

/-- The bucket found for a key is an entry of the dict. -/
theorem glookup_some_mem {k : PyStr} {l : List TemplateField} :
    ∀ {gs : List (PyStr × List TemplateField)}, glookup gs k = some l → (k, l) ∈ gs := by
  intro gs
  induction gs with
  | nil => intro h; cases h
  | cons g rest ih =>
    intro h
    obtain ⟨k0, l0⟩ := g
    by_cases hk : k0 = k
    · subst hk
      simp only [glookup, eq_self_iff_true, if_true, Option.some.injEq] at h
      subst h
      exact List.mem_cons_self _ _
    · simp only [glookup, if_neg hk] at h
      exact List.mem_cons_of_mem _ (ih h)

/-- The rendering of an element is a contiguous part of the concatenation. -/
theorem infix_concatMap {f : α → List β} {a : α} :
    ∀ {l : List α}, a ∈ l → f a <:+: concatMap f l := by
  intro l
  induction l with
  | nil => intro h; cases h
  | cons b t ih =>
    intro h
    rcases List.mem_cons.mp h with rfl | h2
    · exact ⟨[], concatMap f t, by simp [concatMap]⟩
    · rcases ih h2 with ⟨x, y, hxy⟩
      exact ⟨f b ++ x, y, by rw [concatMap, List.append_assoc, List.append_assoc, ← List.append_assoc x, hxy]⟩

theorem isInfix_of_append (x : List β) {z m : List β} (h : m <:+: z) : m <:+: x ++ z := by
  rcases h with ⟨s, t, rfl⟩
  exact ⟨x ++ s, t, by simp⟩

theorem isInfix_append_of (x : List β) {z m : List β} (h : m <:+: z) : m <:+: z ++ x := by
  rcases h with ⟨s, t, rfl⟩
  exact ⟨s, t ++ x, by simp⟩

/-- C9: create_prompt is deterministic, its section banners are the
distinct section keys (the empty section reading General) in
first-occurrence order, each banner groups exactly the fields whose key
matches in original order, and the rendered bullet of every input field,
name alone or name colon description, occurs contiguously in the prompt. -/
theorem create_prompt_deterministic :
    (∀ fs1 fs2 : List TemplateField, fs1 = fs2 → create_prompt fs1 = create_prompt fs2) ∧
    (∀ fields : List TemplateField,
      (groupFields fields).map Prod.fst = firstOccur (fields.map sectionKey)) ∧
    (∀ (fields : List TemplateField) (k : PyStr),
      glookup (groupFields fields) k =
        if (fields.filter (fun f => decide (sectionKey f = k))).isEmpty then none
        else some (fields.filter (fun f => decide (sectionKey f = k)))) ∧
    (∀ (fields : List TemplateField) (f : TemplateField), f ∈ fields →
      renderField f <:+: create_prompt fields) := by
  refine ⟨fun fs1 fs2 h => by rw [h], groupFields_keys_first, ?_, ?_⟩
  · intro fields k
    have h := glookup_groupFold k fields []
    simpa only [glookup, groupFields] using h
  · intro fields f hf
    have hmemf : f ∈ fields.filter (fun g => decide (sectionKey g = sectionKey f)) :=
      List.mem_filter.mpr ⟨hf, decide_eq_true rfl⟩
    have hne :
        (fields.filter (fun g => decide (sectionKey g = sectionKey f))).isEmpty = false := by
      cases he : fields.filter (fun g => decide (sectionKey g = sectionKey f)) with
      | nil => rw [he] at hmemf; cases hmemf
      | cons a l => rfl
    have hlk := glookup_groupFold (sectionKey f) fields []
    simp only [glookup, hne, Bool.false_eq_true, if_false] at hlk
    have hlk2 : glookup (groupFields fields) (sectionKey f) =
        some (fields.filter (fun g => decide (sectionKey g = sectionKey f))) := hlk
    have hgmem := glookup_some_mem hlk2
    have hinf1 : renderField f <:+:
        concatMap renderField (fields.filter (fun g => decide (sectionKey g = sectionKey f))) :=
      infix_concatMap hmemf
    have hinf2 : renderField f <:+:
        renderSection (sectionKey f,
          fields.filter (fun g => decide (sectionKey g = sectionKey f))) := by
      rcases hinf1 with ⟨s, t, hst⟩
      refine ⟨"--- ".toList ++ sectionKey f ++ " ---\n".toList ++ s, t, ?_⟩
      show ("--- ".toList ++ sectionKey f ++ " ---\n".toList ++ s) ++ renderField f ++ t =
        "--- ".toList ++ sectionKey f ++ " ---\n".toList ++
          concatMap renderField (fields.filter (fun g => decide (sectionKey g = sectionKey f)))
      rw [← hst]
      simp [List.append_assoc]
    have hinf3 : renderField f <:+: concatMap renderSection (groupFields fields) :=
      hinf2.trans (infix_concatMap hgmem)
    rcases hinf3 with ⟨s, t, hst⟩
    refine ⟨apiPreamble ++ s, t ++ apiClosing, ?_⟩
    show (apiPreamble ++ s) ++ renderField f ++ (t ++ apiClosing) =
      apiPreamble ++ concatMap renderSection (groupFields fields) ++ apiClosing
    rw [← hst]
    simp [List.append_assoc]

def fieldsC9 : List TemplateField :=
  [TemplateField.make ("X".toList) [] [],
   TemplateField.make ("Y".toList) ("d".toList) ("Sec".toList)]

theorem create_prompt_deterministic_witness :
    create_prompt fieldsC9 = create_prompt fieldsC9 ∧
    (groupFields fieldsC9).map Prod.fst = [generalStr, "Sec".toList] ∧
    renderField (TemplateField.make ("X".toList) [] []) <:+: create_prompt fieldsC9 :=
  ⟨create_prompt_deterministic.1 fieldsC9 fieldsC9 rfl,
   (create_prompt_deterministic.2.1 fieldsC9).trans (by decide),
   create_prompt_deterministic.2.2.2 fieldsC9 (TemplateField.make ("X".toList) [] [])
     (by decide)⟩
